import Mathlib

/-!
Verification development for the GTM-Newsletter repository.

The repository is a React frontend (`frontend/src`) over a FastAPI backend
(`backend/server.py`, not present in the sources at hand); the frontend files
and the product documents (`PRD.md`) are translated directly, and the backend
orchestration engine is modelled from the specification where noted.

All JavaScript strings that the claims reason about character-by-character are
embedded as `List Char`; plain name/status strings are embedded as `String`.
-/

namespace GTM

/-! ## Dependency graph (frontend/src/pages/Settings.jsx, AGENTS; PRD.md) -/

/-- One agent (step) definition: name, declared upstream step names, model id.
Translated from the AGENTS array in `frontend/src/pages/Settings.jsx`
(fields `name`, `inputs`/`variables`, `model`) and the PRD pipeline table. -/
structure StepDef where
  name : String
  upstream : List String
  model : String
deriving DecidableEq, Repr

/-- The six-step pipeline as declared in `Settings.jsx` (AGENTS array): the
`inputs` field and the upstream-output `variables` of each agent give its
declared upstream set. Matches the PRD "Agent Pipeline with Input Chain". -/
def AGENTS : List StepDef :=
  [ ⟨"scout", [], "GPT-5.2"⟩,
    ⟨"tracker", [], "GPT-5.2"⟩,
    ⟨"sage", ["scout", "tracker"], "Claude Sonnet 4.6"⟩,
    ⟨"nexus", ["scout", "tracker", "sage"], "Claude Sonnet 4.6"⟩,
    ⟨"language", ["nexus"], "GPT-5.2"⟩,
    ⟨"html", ["language", "scout", "tracker", "sage"], "GPT-5.2"⟩ ]

/-- Declared upstream set of a named step (first matching definition). -/
def upstreamOf (pipeline : List StepDef) (n : String) : List String :=
  (pipeline.find? (fun d => d.name = n)).elim [] (·.upstream)

/-- Transitive downstream closure of a step in a topologically ordered
pipeline: one forward pass collects every step one of whose upstream names is
the given step or an already-collected descendant. -/
def descendants (pipeline : List StepDef) (s : String) : List String :=
  pipeline.foldl
    (fun acc d =>
      if d.upstream.any (fun u => u = s || acc.contains u) then acc ++ [d.name]
      else acc)
    []

/-! ## Backend URL normalisation (frontend/src/lib/api.js) -/

/-- JavaScript `String.prototype.trim`: strip leading and trailing whitespace. -/
def jsTrim (s : List Char) : List Char :=
  ((s.dropWhile Char.isWhitespace).reverse.dropWhile Char.isWhitespace).reverse

/-- Translated from `api.js` line 1:
`const backendUrl = (process.env.REACT_APP_BACKEND_URL || "").trim();`
with the environment variable as `Option (List Char)` (unset = `none`). -/
def backendUrl (env : Option (List Char)) : List Char :=
  jsTrim (env.getD [])

/-- Translated from `api.js` lines 2-4: drop one trailing slash if present
(`backendUrl.endsWith("/") ? backendUrl.slice(0, -1) : backendUrl`). -/
def normalizedBackendUrl (env : Option (List Char)) : List Char :=
  let b := backendUrl env
  if b.getLast? = some '/' then b.dropLast else b

/-- Translated from `api.js` line 6: `export const API = ...normalizedBackendUrl/api`. -/
def API (env : Option (List Char)) : List Char :=
  normalizedBackendUrl env ++ ['/', 'a', 'p', 'i']

/-! ## Monitored-tools preview (frontend/src/pages/Settings.jsx line 217) -/

/-- JavaScript `String.prototype.split(",")` over character lists: splitting
the empty string yields `[[]]`, and every comma opens a new (possibly empty)
entry, exactly as in JavaScript. -/
def splitCommas : List Char → List (List Char)
  | [] => [[]]
  | c :: cs =>
    if c = ',' then [] :: splitCommas cs
    else
      match splitCommas cs with
      | [] => [[c]]
      | h :: t => (c :: h) :: t

/-- Translated from `Settings.jsx` line 217:
`settings.monitored_tools?.split(",").map(t => t.trim()).filter(Boolean) || []`;
a `none` input models a null/undefined `monitored_tools`, and `filter Boolean`
on strings keeps exactly the non-empty ones. -/
def toolsList (monitored : Option (List Char)) : List (List Char) :=
  match monitored with
  | none => []
  | some s => ((splitCommas s).map jsTrim).filter (fun t => t ≠ [])

/-! ## Status badge rendering (frontend/src/pages/PipelineView.jsx) -/

/-- Property names every plain object literal inherits from
`Object.prototype`; looking any of them up on the `styles` literal yields a
truthy inherited value (a function, or for `__proto__` the prototype object)
rather than `undefined`. -/
def objectPrototypeKeys : List String :=
  ["constructor", "hasOwnProperty", "isPrototypeOf", "propertyIsEnumerable",
   "toLocaleString", "toString", "valueOf", "__proto__",
   "__defineGetter__", "__defineSetter__", "__lookupGetter__",
   "__lookupSetter__"]

/-- Value produced by the JavaScript property lookup `styles[status]` when
it is defined: either an own key's style string, or a truthy non-style value
inherited from `Object.prototype`. -/
inductive StyleLookup where
  | style (cls : String)
  | protoValue
deriving DecidableEq, Repr

/-- The lookup `styles[status]` on the object literal inside
`getStatusBadge` (PipelineView.jsx lines 160-165): an own key yields its
style string; a key inherited from `Object.prototype` yields the truthy
inherited value (JavaScript property lookup traverses the prototype chain);
anything else is `undefined` (here `none`). -/
def statusStyles (status : String) : Option StyleLookup :=
  if status = "pending" then some (.style "bg-amber-100 text-amber-700")
  else if status = "running" then some (.style "bg-blue-100 text-blue-700")
  else if status = "completed" then some (.style "bg-emerald-100 text-emerald-700")
  else if status = "failed" then some (.style "bg-red-100 text-red-700")
  else if status ∈ objectPrototypeKeys then some .protoValue
  else none

/-- Translated from `getStatusBadge` (PipelineView.jsx lines 159-172): the
badge class is `styles[status] || styles.pending` — the fallback fires only
when the lookup is `undefined`, since every defined lookup result (a
non-empty style string or an inherited `Object.prototype` value) is truthy —
and the badge text is `status || "pending"`; the input is `none` for an
undefined status and the empty string is the only falsy defined string. -/
def getStatusBadge (status : Option String) : StyleLookup × String :=
  let cls :=
    match status.bind statusStyles with
    | some v => v
    | none => .style "bg-amber-100 text-amber-700"
  let text :=
    match status with
    | none => "pending"
    | some s => if s = "" then "pending" else s
  (cls, text)

/-- Translated from PipelineView.jsx line 259: `run?.status || "pending"`.
The outer `Option` is the agent having no Step Run record at all; the inner
`Option String` is the record's possibly-undefined `status` field. -/
def displayStatus (run : Option (Option String)) : String :=
  match run with
  | none => "pending"
  | some st =>
    match st with
    | none => "pending"
    | some s => if s = "" then "pending" else s

/-! ## Orchestrator (modelled from the spec)

The orchestration engine lives in `backend/server.py`, which is not among the
sources at hand (the frontend only calls its endpoints `/run` and
`/rerun/{agent}`).  The definitions below are therefore modelled from the
specification, sections 4.1-4.4 and 8: sequential execution in topological
order (the spec's section 9 open question explicitly allows a sequential
implementation), with backoff delays and wall-clock timestamps abstracted
away.  Generation is an oracle `gen model prompt attempt` so each attempt's
outcome is explicit. -/

/-- Step Run status (spec section 3). -/
inductive Status where
  | pending
  | running
  | completed
  | failed
deriving DecidableEq, Repr

/-- Modelled from the spec: one Step Run record per (job, step) — status,
output text, error description, attempt count (timestamps abstracted). -/
structure StepRun where
  status : Status
  output : String
  error : String
  attempts : Nat
deriving DecidableEq, Repr

/-- The fresh / reset Step Run: `pending`, output and error cleared, attempt
count zero (spec sections 3 and 4.4). -/
def resetRun : StepRun := ⟨.pending, "", "", 0⟩

/-- Job state: the Step Run of each step name.  Names outside the pipeline
map to `resetRun` forever. -/
def JobState := String → StepRun

/-- Point update of one step's run. -/
def updateRun (σ : JobState) (n : String) (r : StepRun) : JobState :=
  fun m => if m = n then r else σ m

/-- Modelled from the spec: result of one Generation Client call (section
4.3) — success with output text, or a transient or permanent failure. -/
inductive GenResult where
  | ok (text : String)
  | transient (err : String)
  | permanent (err : String)
deriving DecidableEq, Repr

/-- Generation oracle: model id, composed prompt, 1-based attempt number. -/
def GenOracle := String → String → Nat → GenResult

/-- Modelled from the spec: per-job inputs the Prompt Composer substitutes
besides upstream outputs (section 4.2) — scope descriptor, run instructions,
tracked-items list. -/
structure JobParams where
  scope : String
  instructions : String
  trackedItems : String
deriving DecidableEq, Repr

/-- Modelled from the spec: `compose(step, job, upstream_outputs) -> text`
(section 4.2).  Fails with a composition error if a required upstream output
is missing or empty (a missing Step Run has empty output); otherwise renders
the prompt from the job inputs and the upstream outputs in declared order. -/
def compose (p : JobParams) (σ : JobState) (d : StepDef) : Except String String :=
  if d.upstream.any (fun u => (σ u).output = "") then
    .error "composition error: missing or empty upstream output"
  else
    .ok (p.scope ++ p.instructions ++ p.trackedItems
          ++ String.intercalate "\n" (d.upstream.map (fun u => (σ u).output)))

/-- Modelled from the spec: the retry loop of section 4.4 steps 3-5 for one
step, with `fuel` remaining attempts.  Each round increments the attempt
count; success persists the output and completes, a permanent failure fails
immediately, and a transient failure retries while attempts remain.  Returns
the final Step Run and the number of Generation Client invocations made. -/
def tryGen (g : Nat → GenResult) : Nat → Nat → StepRun × Nat
  | a, 0 => (⟨.failed, "", "attempts exhausted", a⟩, 0)
  | a, fuel + 1 =>
    match g (a + 1) with
    | .ok t => (⟨.completed, t, "", a + 1⟩, 1)
    | .permanent e => (⟨.failed, "", e, a + 1⟩, 1)
    | .transient e =>
      if fuel = 0 then (⟨.failed, "", e, a + 1⟩, 1)
      else
        let r := tryGen g (a + 1) fuel
        (r.1, r.2 + 1)

/-- Modelled from the spec: attempt one eligible step (section 4.4 steps
3-5).  Composition failure is an immediate permanent failure after the
attempt-count increment of step 3, with no generation call; otherwise the
composed prompt is sent through the retry loop.  Returns the resulting Step
Run and the number of Generation Client invocations. -/
def execStep (gen : GenOracle) (maxAttempts : Nat) (p : JobParams)
    (σ : JobState) (d : StepDef) : StepRun × Nat :=
  match compose p σ d with
  | .error e => (⟨.failed, "", e, 1⟩, 0)
  | .ok prompt => tryGen (gen d.model prompt) 0 maxAttempts

/-- Modelled from the spec: one iteration of the drive loop (section 4.4
step 2): a `completed` step is skipped; a step all of whose upstream steps
are `completed` is attempted; otherwise it is marked `failed` with error
"upstream failure" without being attempted. -/
def driveStep (gen : GenOracle) (maxAttempts : Nat) (p : JobParams)
    (σ : JobState) (d : StepDef) : JobState :=
  if (σ d.name).status = .completed then σ
  else if d.upstream.all (fun u => (σ u).status = .completed) then
    updateRun σ d.name (execStep gen maxAttempts p σ d).1
  else
    updateRun σ d.name ⟨.failed, "", "upstream failure", (σ d.name).attempts⟩

/-- Modelled from the spec: the drive loop walks the pipeline once in the
fixed topological order (section 4.4 step 1-2, sequential per section 9). -/
def drive (gen : GenOracle) (maxAttempts : Nat) (p : JobParams)
    (pipeline : List StepDef) (σ : JobState) : JobState :=
  pipeline.foldl (driveStep gen maxAttempts p) σ

/-- Every intermediate state of the drive loop, initial state first. -/
def driveTrace (gen : GenOracle) (maxAttempts : Nat) (p : JobParams) :
    JobState → List StepDef → List JobState
  | σ, [] => [σ]
  | σ, d :: ds => σ :: driveTrace gen maxAttempts p (driveStep gen maxAttempts p σ d) ds

/-- Modelled from the spec: `resume(job, from_step)` invalidation (section
4.4): reset `from_step` and every descendant to the fresh pending record,
leaving every other Step Run untouched. -/
def resume (pipeline : List StepDef) (σ : JobState) (s : String) : JobState :=
  (s :: descendants pipeline s).foldl (fun τ n => updateRun τ n resetRun) σ

/-- Modelled from the spec: derived overall Job status after the drive loop
(section 4.4 step 6): `failed` if any Step Run is failed, else `completed`
if every Step Run is completed, else still `running`. -/
def jobStatus (pipeline : List StepDef) (σ : JobState) : String :=
  if pipeline.any (fun d => (σ d.name).status = .failed) then "failed"
  else if pipeline.all (fun d => (σ d.name).status = .completed) then "completed"
  else "running"

/-- Modelled from the spec: on full completion the final assembled output is
recorded from the terminal step (section 4.4 step 6). -/
def finalOutput (pipeline : List StepDef) (σ : JobState) : Option String :=
  if jobStatus pipeline σ = "completed" then
    (pipeline.getLast?).map (fun d => (σ d.name).output)
  else none

/-! ## Stated invariants (spec sections 5 and 8) -/

/-- Spec section 8 first property: no Step Run is `completed` with empty
output, and none is `failed` with non-empty output. -/
def TerminalConsistent (σ : JobState) : Prop :=
  ∀ n, ((σ n).status = .completed → (σ n).output ≠ "") ∧
       ((σ n).status = .failed → (σ n).output = "")

/-- Spec sections 5 and 8: whenever a step has been attempted (positive
attempt count) or has completed, every one of its declared upstream steps is
`completed` in that very state. -/
def DepOrdered (pipeline : List StepDef) (σ : JobState) : Prop :=
  ∀ d ∈ pipeline, ((σ d.name).status = .completed ∨ 0 < (σ d.name).attempts) →
    ∀ u ∈ d.upstream, (σ u).status = .completed

/-- A Step Run in a terminal state: completed or failed. -/
def terminalRun (r : StepRun) : Prop :=
  r.status = .completed ∨ r.status = .failed

/-! ## Concrete fixtures used by the witness theorems -/

/-- Fresh job state: every Step Run pending with cleared fields. -/
def initState : JobState := fun _ => resetRun

/-- A state where every step has completed with output "out". -/
def exampleState : JobState := fun _ => ⟨.completed, "out", "", 1⟩

/-- A state where "sage" is pending and both of its upstream steps are
completed yet carry an empty output. -/
def emptyUpstreamState : JobState :=
  fun n => if n = "sage" then resetRun else ⟨.completed, "", "", 1⟩

/-- Generation oracle that always succeeds with the text "text". -/
def okOracle : GenOracle := fun _ _ _ => .ok "text"

/-- Generation oracle that always fails transiently. -/
def transientOracle : GenOracle := fun _ _ _ => .transient "timeout"

/-- Generation oracle that always fails permanently. -/
def permOracle : GenOracle := fun _ _ _ => .permanent "auth"

/-- Example per-job composer inputs. -/
def exampleParams : JobParams := ⟨"scope", "", "tools"⟩

/-- The spec section 8 scenario graph: two independent roots R1, R2 and one
step M depending on both. -/
def twoRootsPipeline : List StepDef :=
  [ ⟨"R1", [], "m"⟩, ⟨"R2", [], "m"⟩, ⟨"M", ["R1", "R2"], "m"⟩ ]

/-! ## Theorems -/

/-- Claim C1 counterexample: in the code the step named "html" declares
upstream inputs "Language + Scout + Tracker + Sage" (Settings.jsx AGENTS,
PRD pipeline table); Nexus is not among its declared upstream steps, contrary
to the claim that the fifth together with all of the first four feed the
sixth. -/
theorem html_upstream_no_nexus : ¬ ("nexus" ∈ upstreamOf AGENTS "html") := by
  decide

/-- Claim C1 (amended): the dependency graph of the six steps has two
independent roots (scout, tracker) feeding sage, the first three feeding
nexus, nexus feeding language, and the declared upstream set of html being
exactly language, scout, tracker and sage — nexus reaches html only
transitively through language, not as a declared upstream. -/
theorem pipeline_graph_structure :
    upstreamOf AGENTS "scout" = [] ∧
    upstreamOf AGENTS "tracker" = [] ∧
    upstreamOf AGENTS "sage" = ["scout", "tracker"] ∧
    upstreamOf AGENTS "nexus" = ["scout", "tracker", "sage"] ∧
    upstreamOf AGENTS "language" = ["nexus"] ∧
    upstreamOf AGENTS "html" = ["language", "scout", "tracker", "sage"] ∧
    ¬ ("nexus" ∈ upstreamOf AGENTS "html") ∧
    "html" ∈ descendants AGENTS "nexus" := by
  decide

/-- Folding pointwise resets over a list of names resets exactly those
names. -/
theorem foldl_reset_lookup : ∀ (L : List String) (σ : JobState) (n : String),
    (L.foldl (fun τ m => updateRun τ m resetRun) σ) n =
      if n ∈ L then resetRun else σ n
  | [], _, _ => by simp
  | a :: L, σ, n => by
    rw [List.foldl_cons, foldl_reset_lookup L]
    by_cases h : n ∈ L
    · simp [h]
    · by_cases h2 : n = a <;> simp [h, h2, updateRun]

/-- Claim C2: for every job state and step S with descendant set D,
resume(job, S) resets S and every member of D to the fresh pending record
(status pending, output and error cleared, attempt count zero) and leaves the
Step Run of every step outside the set S and D exactly unchanged. -/
theorem resume_frame (pipeline : List StepDef) (σ : JobState) (s n : String) :
    ((n = s ∨ n ∈ descendants pipeline s) → resume pipeline σ s n = resetRun) ∧
    (¬ (n = s ∨ n ∈ descendants pipeline s) → resume pipeline σ s n = σ n) := by
  unfold resume
  rw [foldl_reset_lookup]
  constructor
  · intro h
    simp [List.mem_cons, h]
  · intro h
    simp only [List.mem_cons]
    simp [h]

/-- Witness for claim C2 on the repository's six-step graph: resuming from
sage resets the descendant html and leaves the completed ancestor scout
untouched with its original output. -/
theorem resume_frame_witness :
    resume AGENTS exampleState "sage" "html" = resetRun ∧
    resume AGENTS exampleState "sage" "scout" = exampleState "scout" :=
  ⟨(resume_frame AGENTS exampleState "sage" "html").1 (by decide),
   (resume_frame AGENTS exampleState "sage" "scout").2 (by decide)⟩

/-- Claim C8: the exported API constant is the trimmed backend URL with at
most one trailing slash removed, concatenated with "/api"; an unset or empty
variable yields exactly "/api"; and a configured URL with one trailing slash
never produces a constant ending in "//api". -/
theorem api_constant_normalization :
    (∀ env, API env =
      (let u := jsTrim (env.getD []);
        if u.getLast? = some '/' then u.dropLast else u) ++ ['/', 'a', 'p', 'i']) ∧
    API none = ['/', 'a', 'p', 'i'] ∧
    API (some []) = ['/', 'a', 'p', 'i'] ∧
    (∀ env, (backendUrl env).getLast? = some '/' →
      (backendUrl env).dropLast.getLast? ≠ some '/' →
      ¬ List.IsSuffix ['/', '/', 'a', 'p', 'i'] (API env)) := by
  refine ⟨fun env => rfl, rfl, rfl, fun env h1 h2 hsuf => ?_⟩
  rw [API, normalizedBackendUrl] at hsuf
  simp only [h1, if_pos] at hsuf
  obtain ⟨t, ht⟩ := hsuf
  have ht2 : (t ++ ['/']) ++ ['/', 'a', 'p', 'i'] =
      (backendUrl env).dropLast ++ ['/', 'a', 'p', 'i'] := by
    simpa [List.append_assoc] using ht
  have hv : t ++ ['/'] = (backendUrl env).dropLast :=
    List.append_cancel_right ht2
  exact h2 (by rw [← hv]; simp)

/-- Witness for claim C8: the configured URL " http://x/ " (single trailing
slash after trimming) does not yield a constant ending in "//api". -/
theorem api_constant_normalization_witness :
    ¬ List.IsSuffix ['/', '/', 'a', 'p', 'i'] (API (some " http://x/ ".toList)) :=
  api_constant_normalization.2.2.2 (some " http://x/ ".toList) (by decide) (by decide)

/-- Claim C9: the tools preview list is exactly the comma-separated entries
of monitored_tools, each trimmed, with empty entries removed — so a member is
always a non-empty trimmed entry — and a null monitored_tools value yields
the empty list. -/
theorem tools_list_spec :
    toolsList none = [] ∧
    ∀ s t, t ∈ toolsList (some s) ↔ t ≠ [] ∧ ∃ e ∈ splitCommas s, t = jsTrim e := by
  refine ⟨rfl, fun s t => ?_⟩
  simp only [toolsList, List.mem_filter, List.mem_map, decide_eq_true_eq]
  constructor
  · rintro ⟨⟨e, he, rfl⟩, hne⟩
    exact ⟨hne, e, he, rfl⟩
  · rintro ⟨hne, e, he, rfl⟩
    exact ⟨⟨e, he, rfl⟩, hne⟩

/-- Witness for claim C9: the input " Clay, ,Apollo" previews as the trimmed
non-empty entries, containing "Clay". -/
theorem tools_list_spec_witness :
    "Clay".toList ∈ toolsList (some " Clay, ,Apollo".toList) :=
  (tools_list_spec.2 " Clay, ,Apollo".toList "Clay".toList).mpr
    ⟨by decide, " Clay".toList, by decide, by decide⟩

/-- Claim C10 counterexample: the status string "constructor" lies outside
the four known keys, yet the JavaScript lookup `styles["constructor"]` finds
the truthy `Object.prototype.constructor`, so getStatusBadge renders that
inherited value as the badge class instead of falling back to the pending
style — refuting the claim's universal pending-style fallback. -/
theorem status_badge_proto_leak :
    (getStatusBadge (some "constructor")).1 = .protoValue ∧
    (getStatusBadge (some "constructor")).1 ≠
      .style "bg-amber-100 text-amber-700" := by
  decide

/-- Claim C10 (amended): getStatusBadge falls back to the pending style for
an undefined status and for every status string outside the four known keys
that is not a property name inherited from Object.prototype (its text being
the status itself, or "pending" for the empty string); for the inherited
property names the truthy inherited value leaks through as the badge class
instead of the fallback; and an agent with no Step Run record at all is
displayed with status "pending". -/
theorem status_badge_total :
    (∀ s : String, s ≠ "pending" → s ≠ "running" → s ≠ "completed" →
      s ≠ "failed" → ¬ (s ∈ objectPrototypeKeys) →
      getStatusBadge (some s) =
        (.style "bg-amber-100 text-amber-700",
          if s = "" then "pending" else s)) ∧
    (∀ s ∈ objectPrototypeKeys, (getStatusBadge (some s)).1 = .protoValue) ∧
    getStatusBadge none = (.style "bg-amber-100 text-amber-700", "pending") ∧
    displayStatus none = "pending" := by
  refine ⟨fun s h1 h2 h3 h4 h5 => ?_, by decide, rfl, rfl⟩
  simp [getStatusBadge, statusStyles, h1, h2, h3, h4, h5]

/-- Witness for claim C10: the out-of-range status "bogus" renders with the
pending style and its own text, while the inherited key "toString" leaks the
prototype value. -/
theorem status_badge_total_witness :
    getStatusBadge (some "bogus") =
      (.style "bg-amber-100 text-amber-700", "bogus") ∧
    (getStatusBadge (some "toString")).1 = .protoValue := by
  constructor
  · simpa using status_badge_total.1 "bogus" (by decide) (by decide)
      (by decide) (by decide) (by decide)
  · exact status_badge_total.2.1 "toString" (by decide)

/-- When every upstream output is non-empty, composition succeeds with the
rendered prompt. -/
theorem compose_ok_of_nonempty (p : JobParams) (σ : JobState) (d : StepDef)
    (h : ∀ u ∈ d.upstream, (σ u).output ≠ "") :
    compose p σ d = .ok (p.scope ++ p.instructions ++ p.trackedItems
      ++ String.intercalate "\n" (d.upstream.map (fun u => (σ u).output))) := by
  unfold compose
  rw [if_neg]
  simp only [List.any_eq_true, decide_eq_true_eq, not_exists, not_and]
  exact h

/-- Under an all-transient generation oracle the retry loop consumes all of
its fuel, one attempt per unit. -/
theorem tryGen_transient (g : Nat → GenResult) (e : String)
    (hg : ∀ k, g k = .transient e) :
    ∀ (fuel a : Nat), 1 ≤ fuel →
      (tryGen g a fuel).1 = ⟨.failed, "", e, a + fuel⟩ := by
  intro fuel
  induction fuel with
  | zero => intro a h; exact absurd h (by simp)
  | succ f ih =>
    intro a _
    by_cases hf : f = 0
    · subst hf; simp [tryGen, hg]
    · have harith : a + 1 + f = a + (f + 1) := by omega
      simp only [tryGen, hg, hf, if_neg]
      rw [ih (a + 1) (Nat.one_le_iff_ne_zero.mpr hf), harith]
      simp

/-- Claim C5: with at least one allowed attempt and a composable prompt, an
all-transient generation failure is retried until the attempt cap, leaving a
failed Step Run whose attempt count equals the configured max attempts; a
permanent failure on the first attempt is never retried, leaving a failed
Step Run with attempt count exactly 1. -/
theorem retry_policy (gen1 gen2 : GenOracle) (maxAttempts : Nat) (p : JobParams)
    (σ : JobState) (d : StepDef) (e1 e2 : String)
    (hmax : 1 ≤ maxAttempts)
    (hcomp : ∀ u ∈ d.upstream, (σ u).output ≠ "") :
    ((∀ pr a, gen1 d.model pr a = .transient e1) →
      (execStep gen1 maxAttempts p σ d).1 = ⟨.failed, "", e1, maxAttempts⟩) ∧
    ((∀ pr, gen2 d.model pr 1 = .permanent e2) →
      (execStep gen2 maxAttempts p σ d).1 = ⟨.failed, "", e2, 1⟩) := by
  constructor
  · intro htrans
    unfold execStep
    rw [compose_ok_of_nonempty p σ d hcomp]
    rw [tryGen_transient (gen1 d.model _) e1 (fun k => htrans _ k) maxAttempts 0 hmax]
    rw [Nat.zero_add]
  · intro hperm
    unfold execStep
    rw [compose_ok_of_nonempty p σ d hcomp]
    cases maxAttempts with
    | zero => exact absurd hmax (by simp)
    | succ m => simp [tryGen, hperm]

/-- Witness for claim C5: on a sage-shaped step with completed upstream
outputs "out", three allowed attempts under all-transient failures end failed
with attempt count 3, and a first-attempt permanent failure ends failed with
attempt count 1. -/
theorem retry_policy_witness :
    (execStep transientOracle 3 exampleParams exampleState
      (StepDef.mk "sage" ["scout", "tracker"] "m")).1 =
      ⟨.failed, "", "timeout", 3⟩ ∧
    (execStep permOracle 3 exampleParams exampleState
      (StepDef.mk "sage" ["scout", "tracker"] "m")).1 =
      ⟨.failed, "", "auth", 1⟩ :=
  ⟨(retry_policy transientOracle permOracle 3 exampleParams exampleState
      (StepDef.mk "sage" ["scout", "tracker"] "m") "timeout" "auth" (by decide)
      (by decide)).1 (fun _ _ => rfl),
   (retry_policy transientOracle permOracle 3 exampleParams exampleState
      (StepDef.mk "sage" ["scout", "tracker"] "m") "timeout" "auth" (by decide)
      (by decide)).2 (fun _ => rfl)⟩

/-- Claim C7: if a step's template references an upstream step whose output
is empty, the composer raises a composition error and the step is marked
failed (attempt count 1, a permanent failure) with zero Generation Client
invocations; accordingly the drive loop records exactly that failed Step Run
for the step. -/
theorem composition_failure_permanent (gen : GenOracle) (maxAttempts : Nat)
    (p : JobParams) (σ : JobState) (d : StepDef) (u : String)
    (hu : u ∈ d.upstream) (hout : (σ u).output = "") :
    execStep gen maxAttempts p σ d =
      (⟨.failed, "", "composition error: missing or empty upstream output", 1⟩,
        0) ∧
    ((σ d.name).status ≠ .completed →
      (d.upstream.all (fun v => (σ v).status = .completed)) = true →
      driveStep gen maxAttempts p σ d = updateRun σ d.name
        ⟨.failed, "", "composition error: missing or empty upstream output", 1⟩) := by
  have hcomp : compose p σ d =
      .error "composition error: missing or empty upstream output" := by
    unfold compose
    rw [if_pos]
    simp only [List.any_eq_true, decide_eq_true_eq]
    exact ⟨u, hu, hout⟩
  have hexec : execStep gen maxAttempts p σ d =
      (⟨.failed, "", "composition error: missing or empty upstream output", 1⟩,
        0) := by
    unfold execStep
    rw [hcomp]
  refine ⟨hexec, fun h1 h2 => ?_⟩
  unfold driveStep
  rw [if_neg h1, if_pos h2, hexec]

/-- Witness for claim C7: with sage pending and its upstream steps completed
with empty outputs, attempting sage yields the composition failure with zero
generation calls. -/
theorem composition_failure_permanent_witness :
    execStep permOracle 3 exampleParams emptyUpstreamState
      (StepDef.mk "sage" ["scout", "tracker"] "m") =
      (⟨.failed, "", "composition error: missing or empty upstream output", 1⟩,
        0) :=
  (composition_failure_permanent permOracle 3 exampleParams emptyUpstreamState
    (StepDef.mk "sage" ["scout", "tracker"] "m") "scout" (by decide)
    (by decide)).1

/-- The retry loop commits only terminally consistent records: completion
carries the generation output (non-empty when the oracle never returns empty
success text) and failure carries an empty output. -/
theorem tryGen_consistent (g : Nat → GenResult) (hg : ∀ k, g k ≠ .ok "") :
    ∀ (fuel a : Nat),
      ((tryGen g a fuel).1.status = .completed → (tryGen g a fuel).1.output ≠ "") ∧
      ((tryGen g a fuel).1.status = .failed → (tryGen g a fuel).1.output = "") := by
  intro fuel
  induction fuel with
  | zero => intro a; simp [tryGen]
  | succ f ih =>
    intro a
    rcases hgeq : g (a + 1) with t | e | e
    · have ht : t ≠ "" := fun h => hg (a + 1) (by rw [hgeq, h])
      simp [tryGen, hgeq, ht]
    · by_cases hf : f = 0
      · subst hf; simp [tryGen, hgeq]
      · simpa [tryGen, hgeq, hf] using ih (a + 1)
    · simp [tryGen, hgeq]

/-- One step attempt commits only terminally consistent records. -/
theorem execStep_consistent (gen : GenOracle) (maxAttempts : Nat) (p : JobParams)
    (σ : JobState) (d : StepDef) (hgen : ∀ m pr a, gen m pr a ≠ .ok "") :
    ((execStep gen maxAttempts p σ d).1.status = .completed →
      (execStep gen maxAttempts p σ d).1.output ≠ "") ∧
    ((execStep gen maxAttempts p σ d).1.status = .failed →
      (execStep gen maxAttempts p σ d).1.output = "") := by
  unfold execStep
  rcases hc : compose p σ d with e | pr
  · simp
  · exact tryGen_consistent _ (fun k => hgen d.model pr k) maxAttempts 0

/-- One drive-loop iteration preserves terminal consistency. -/
theorem driveStep_consistent (gen : GenOracle) (maxAttempts : Nat) (p : JobParams)
    (σ : JobState) (d : StepDef) (hgen : ∀ m pr a, gen m pr a ≠ .ok "")
    (hσ : TerminalConsistent σ) :
    TerminalConsistent (driveStep gen maxAttempts p σ d) := by
  intro n
  unfold driveStep
  by_cases h1 : (σ d.name).status = .completed
  · rw [if_pos h1]; exact hσ n
  · rw [if_neg h1]
    by_cases h2 : (d.upstream.all fun u => (σ u).status = .completed) = true
    · rw [if_pos h2]
      by_cases hn : n = d.name
      · simpa [updateRun, hn] using
          execStep_consistent gen maxAttempts p σ d hgen
      · simpa [updateRun, hn] using hσ n
    · rw [if_neg h2]
      by_cases hn : n = d.name
      · simp [updateRun, hn]
      · simpa [updateRun, hn] using hσ n

/-- Every state along the drive loop is terminally consistent, provided the
initial one is and generation success is never empty. -/
theorem driveTrace_consistent (gen : GenOracle) (maxAttempts : Nat)
    (p : JobParams) (hgen : ∀ m pr a, gen m pr a ≠ .ok "") :
    ∀ (L : List StepDef) (σ : JobState), TerminalConsistent σ →
      ∀ σ' ∈ driveTrace gen maxAttempts p σ L, TerminalConsistent σ' := by
  intro L
  induction L with
  | nil =>
    intro σ hσ σ' h
    rw [driveTrace] at h
    simp only [List.mem_singleton] at h
    subst h; exact hσ
  | cons d ds ih =>
    intro σ hσ σ' h
    rw [driveTrace] at h
    rcases List.mem_cons.mp h with h | h
    · subst h; exact hσ
    · exact ih (driveStep gen maxAttempts p σ d)
        (driveStep_consistent gen maxAttempts p σ d hgen hσ) σ' h

/-- Claim C3: starting from any terminally consistent job state (such as a
fresh all-pending one), a resume and every state of the drive loop keep the
invariant that no Step Run is `completed` with empty output and none is
`failed` with non-empty output, provided a successful generation never
returns the empty text. -/
theorem terminal_state_consistency (gen : GenOracle) (maxAttempts : Nat)
    (p : JobParams) (pipeline : List StepDef) (σ : JobState) (s : String)
    (hgen : ∀ m pr a, gen m pr a ≠ .ok "")
    (hσ : TerminalConsistent σ) :
    TerminalConsistent (resume pipeline σ s) ∧
    ∀ σ' ∈ driveTrace gen maxAttempts p σ pipeline, TerminalConsistent σ' := by
  constructor
  · intro n
    unfold resume
    rw [foldl_reset_lookup]
    split
    · simp [resetRun]
    · exact hσ n
  · exact driveTrace_consistent gen maxAttempts p hgen pipeline σ hσ

/-- Witness for claim C3: resuming the six-step job from sage on the fresh
state keeps the invariant. -/
theorem terminal_state_consistency_witness :
    TerminalConsistent (resume AGENTS initState "sage") :=
  (terminal_state_consistency okOracle 3 exampleParams AGENTS initState "sage"
    (fun _ _ _ h => by simp [okOracle] at h)
    (fun _ => ⟨fun h => by simp [initState, resetRun] at h, fun _ => rfl⟩)).1

/-- Derived job status is "completed" exactly when every Step Run in the
pipeline is completed. -/
theorem jobStatus_completed_iff (pipeline : List StepDef) (σ : JobState) :
    jobStatus pipeline σ = "completed" ↔
      ∀ d ∈ pipeline, (σ d.name).status = .completed := by
  unfold jobStatus
  by_cases hf : (pipeline.any fun d => (σ d.name).status = .failed) = true
  · rw [if_pos hf]
    simp only [List.any_eq_true, decide_eq_true_eq] at hf
    obtain ⟨d, hd, hfail⟩ := hf
    constructor
    · intro h; exact absurd h (by decide)
    · intro h
      have hc := h d hd
      rw [hc] at hfail
      exact absurd hfail (by decide)
  · rw [if_neg hf]
    by_cases ha : (pipeline.all fun d => (σ d.name).status = .completed) = true
    · rw [if_pos ha]
      simp only [List.all_eq_true, decide_eq_true_eq] at ha
      exact iff_of_true rfl ha
    · rw [if_neg ha]
      simp only [List.all_eq_true, decide_eq_true_eq] at ha
      exact iff_of_false (by decide) ha

/-- Derived job status is "failed" exactly when some Step Run in the pipeline
is failed. -/
theorem jobStatus_failed_iff (pipeline : List StepDef) (σ : JobState) :
    jobStatus pipeline σ = "failed" ↔
      ∃ d ∈ pipeline, (σ d.name).status = .failed := by
  unfold jobStatus
  by_cases hf : (pipeline.any fun d => (σ d.name).status = .failed) = true
  · rw [if_pos hf]
    simp only [List.any_eq_true, decide_eq_true_eq] at hf
    exact iff_of_true rfl hf
  · rw [if_neg hf]
    simp only [List.any_eq_true, decide_eq_true_eq, not_exists, not_and] at hf
    have hne : ¬ ∃ d ∈ pipeline, (σ d.name).status = .failed := by
      rintro ⟨d, hd, h⟩; exact hf d hd h
    by_cases ha : (pipeline.all fun d => (σ d.name).status = .completed) = true
    · rw [if_pos ha]; exact iff_of_false (by decide) hne
    · rw [if_neg ha]; exact iff_of_false (by decide) hne

/-- The retry loop always ends in a terminal status. -/
theorem tryGen_terminal (g : Nat → GenResult) :
    ∀ (fuel a : Nat), terminalRun (tryGen g a fuel).1 := by
  intro fuel
  induction fuel with
  | zero => intro a; simp [tryGen, terminalRun]
  | succ f ih =>
    intro a
    rcases hgeq : g (a + 1) with t | e | e
    · simp [tryGen, hgeq, terminalRun]
    · by_cases hf : f = 0
      · subst hf; simp [tryGen, hgeq, terminalRun]
      · simpa [tryGen, hgeq, hf] using ih (a + 1)
    · simp [tryGen, hgeq, terminalRun]

/-- A step attempt always ends in a terminal status. -/
theorem execStep_terminal (gen : GenOracle) (maxAttempts : Nat) (p : JobParams)
    (σ : JobState) (d : StepDef) :
    terminalRun (execStep gen maxAttempts p σ d).1 := by
  unfold execStep
  rcases hc : compose p σ d with e | pr
  · simp [terminalRun]
  · exact tryGen_terminal _ maxAttempts 0

/-- One drive-loop iteration leaves every other step's run unchanged. -/
theorem driveStep_other (gen : GenOracle) (maxAttempts : Nat) (p : JobParams)
    (σ : JobState) (d : StepDef) (n : String) (hn : n ≠ d.name) :
    (driveStep gen maxAttempts p σ d) n = σ n := by
  unfold driveStep
  by_cases h1 : (σ d.name).status = .completed
  · rw [if_pos h1]
  · rw [if_neg h1]
    by_cases h2 : (d.upstream.all fun u => (σ u).status = .completed) = true
    · rw [if_pos h2]; simp [updateRun, hn]
    · rw [if_neg h2]; simp [updateRun, hn]

/-- After its own drive-loop iteration a step's run is terminal. -/
theorem driveStep_self_terminal (gen : GenOracle) (maxAttempts : Nat)
    (p : JobParams) (σ : JobState) (d : StepDef) :
    terminalRun ((driveStep gen maxAttempts p σ d) d.name) := by
  unfold driveStep
  by_cases h1 : (σ d.name).status = .completed
  · rw [if_pos h1]; exact Or.inl h1
  · rw [if_neg h1]
    by_cases h2 : (d.upstream.all fun u => (σ u).status = .completed) = true
    · rw [if_pos h2]
      simpa [updateRun] using execStep_terminal gen maxAttempts p σ d
    · rw [if_neg h2]; simp [updateRun, terminalRun]

/-- One drive-loop iteration preserves terminality of any step's run. -/
theorem driveStep_preserves_terminal (gen : GenOracle) (maxAttempts : Nat)
    (p : JobParams) (σ : JobState) (d : StepDef) (n : String)
    (h : terminalRun (σ n)) :
    terminalRun ((driveStep gen maxAttempts p σ d) n) := by
  by_cases hn : n = d.name
  · subst hn; exact driveStep_self_terminal gen maxAttempts p σ d
  · rw [driveStep_other gen maxAttempts p σ d n hn]; exact h

/-- The drive loop preserves terminality of any step's run. -/
theorem drive_preserves_terminal (gen : GenOracle) (maxAttempts : Nat)
    (p : JobParams) :
    ∀ (L : List StepDef) (σ : JobState) (n : String), terminalRun (σ n) →
      terminalRun ((L.foldl (driveStep gen maxAttempts p) σ) n) := by
  intro L
  induction L with
  | nil => intro σ n h; simpa using h
  | cons e es ih =>
    intro σ n h
    rw [List.foldl_cons]
    exact ih _ n (driveStep_preserves_terminal gen maxAttempts p σ e n h)

/-- After the drive loop every step of the pipeline is terminal. -/
theorem drive_terminal (gen : GenOracle) (maxAttempts : Nat) (p : JobParams) :
    ∀ (L : List StepDef) (σ : JobState) (d : StepDef), d ∈ L →
      terminalRun ((L.foldl (driveStep gen maxAttempts p) σ) d.name) := by
  intro L
  induction L with
  | nil => intro σ d h; simp at h
  | cons e es ih =>
    intro σ d h
    rw [List.foldl_cons]
    rcases List.mem_cons.mp h with h | h
    · subst h
      exact drive_preserves_terminal gen maxAttempts p es _ d.name
        (driveStep_self_terminal gen maxAttempts p σ d)
    · exact ih _ d h

/-- Claim C4: after the drive loop every Step Run of the pipeline is
terminal, the derived Job status is "completed" exactly when every Step Run
is completed — in which case the final assembled output is recorded from the
terminal step — and "failed" exactly when at least one Step Run is failed. -/
theorem job_status_after_drive (gen : GenOracle) (maxAttempts : Nat)
    (p : JobParams) (pipeline : List StepDef) (σ : JobState) :
    (∀ d ∈ pipeline,
      terminalRun ((drive gen maxAttempts p pipeline σ) d.name)) ∧
    (jobStatus pipeline (drive gen maxAttempts p pipeline σ) = "completed" ↔
      ∀ d ∈ pipeline,
        ((drive gen maxAttempts p pipeline σ) d.name).status = .completed) ∧
    (jobStatus pipeline (drive gen maxAttempts p pipeline σ) = "failed" ↔
      ∃ d ∈ pipeline,
        ((drive gen maxAttempts p pipeline σ) d.name).status = .failed) ∧
    (jobStatus pipeline (drive gen maxAttempts p pipeline σ) = "completed" →
      finalOutput pipeline (drive gen maxAttempts p pipeline σ) =
        (pipeline.getLast?).map
          (fun d => ((drive gen maxAttempts p pipeline σ) d.name).output)) := by
  refine ⟨fun d hd => drive_terminal gen maxAttempts p pipeline σ d hd,
    jobStatus_completed_iff _ _, jobStatus_failed_iff _ _, fun h => ?_⟩
  unfold finalOutput
  rw [if_pos h]

/-- Witness for claim C4: driving the six-step job from fresh state with an
always-succeeding oracle yields the derived status "completed". -/
theorem job_status_after_drive_witness :
    jobStatus AGENTS (drive okOracle 3 exampleParams AGENTS initState) =
      "completed" :=
  (job_status_after_drive okOracle 3 exampleParams AGENTS initState).2.1.mpr
    (by decide)

/-- One drive-loop iteration on a pipeline member preserves the
dependency-ordering invariant when step names are duplicate-free. -/
theorem driveStep_dep_ordered (gen : GenOracle) (maxAttempts : Nat)
    (p : JobParams) (pipeline : List StepDef)
    (hnd : (pipeline.map (fun d => d.name)).Nodup)
    (d : StepDef) (hd : d ∈ pipeline)
    (σ : JobState) (hσ : DepOrdered pipeline σ) :
    DepOrdered pipeline (driveStep gen maxAttempts p σ d) := by
  by_cases h1 : (σ d.name).status = .completed
  · unfold driveStep
    rw [if_pos h1]
    exact hσ
  · by_cases h2 : (d.upstream.all fun v => (σ v).status = .completed) = true
    · have hall : ∀ v ∈ d.upstream, (σ v).status = .completed := by
        simpa using h2
      have hdn : d.name ∉ d.upstream := fun hmem => h1 (hall d.name hmem)
      have hstep : driveStep gen maxAttempts p σ d =
          updateRun σ d.name (execStep gen maxAttempts p σ d).1 := by
        unfold driveStep; rw [if_neg h1, if_pos h2]
      rw [hstep]
      intro d' hd' hprem u hu
      by_cases hname : d'.name = d.name
      · have hd'd : d' = d := List.inj_on_of_nodup_map hnd hd' hd hname
        rw [hd'd] at hu
        have hune : u ≠ d.name := fun he => hdn (he ▸ hu)
        have heq : (updateRun σ d.name (execStep gen maxAttempts p σ d).1) u
            = σ u := by simp [updateRun, hune]
        rw [heq]
        exact hall u hu
      · have heq : (updateRun σ d.name (execStep gen maxAttempts p σ d).1)
            d'.name = σ d'.name := by simp [updateRun, hname]
        rw [heq] at hprem
        have hups := hσ d' hd' hprem u hu
        have hune : u ≠ d.name := fun he => h1 (by rw [← he]; exact hups)
        simpa [updateRun, hune] using hups
    · have hstep : driveStep gen maxAttempts p σ d = updateRun σ d.name
          ⟨.failed, "", "upstream failure", (σ d.name).attempts⟩ := by
        unfold driveStep; rw [if_neg h1, if_neg h2]
      rw [hstep]
      intro d' hd' hprem u hu
      by_cases hname : d'.name = d.name
      · rw [hname] at hprem
        simp only [updateRun, if_pos rfl] at hprem
        have hprem' : 0 < (σ d.name).attempts := by
          rcases hprem with hc | ha
          · exact absurd hc (by simp)
          · simpa using ha
        have hd'd : d' = d := List.inj_on_of_nodup_map hnd hd' hd hname
        have hups := hσ d hd (Or.inr hprem')
        refine absurd ?_ h2
        simp only [List.all_eq_true, decide_eq_true_eq]
        exact hups
      · have heq : (updateRun σ d.name
            ⟨.failed, "", "upstream failure", (σ d.name).attempts⟩) d'.name
            = σ d'.name := by simp [updateRun, hname]
        rw [heq] at hprem
        have hups := hσ d' hd' hprem u hu
        have hune : u ≠ d.name := fun he => h1 (by rw [← he]; exact hups)
        simpa [updateRun, hune] using hups

/-- Every state along a drive loop over pipeline members preserves the
dependency-ordering invariant. -/
theorem driveTrace_dep_ordered (gen : GenOracle) (maxAttempts : Nat)
    (p : JobParams) (pipeline : List StepDef)
    (hnd : (pipeline.map (fun d => d.name)).Nodup) :
    ∀ (L : List StepDef), (∀ d ∈ L, d ∈ pipeline) →
      ∀ (σ : JobState), DepOrdered pipeline σ →
      ∀ σ' ∈ driveTrace gen maxAttempts p σ L, DepOrdered pipeline σ' := by
  intro L
  induction L with
  | nil =>
    intro _ σ hσ σ' h
    rw [driveTrace] at h
    simp only [List.mem_singleton] at h
    subst h; exact hσ
  | cons d ds ih =>
    intro hsub σ hσ σ' h
    rw [driveTrace] at h
    rcases List.mem_cons.mp h with h | h
    · subst h; exact hσ
    · exact ih (fun e he => hsub e (List.mem_cons_of_mem d he)) _
        (driveStep_dep_ordered gen maxAttempts p pipeline hnd d
          (hsub d (List.mem_cons_self d ds)) σ hσ) σ' h

/-- Claim C6: for a pipeline with duplicate-free step names, starting from
any state satisfying the dependency-ordering invariant (such as the fresh
all-pending state of a job with two independent roots and a step depending
on both), every state reached by the drive loop keeps the invariant: a step
that has completed or has ever been attempted has all of its upstream steps
`completed` in that very state — so no dependent step leaves `pending` by
being attempted before all of its upstream steps are completed. -/
theorem dependency_ordering (gen : GenOracle) (maxAttempts : Nat)
    (p : JobParams) (pipeline : List StepDef) (σ : JobState)
    (hnd : (pipeline.map (fun d => d.name)).Nodup)
    (hσ : DepOrdered pipeline σ) :
    ∀ σ' ∈ driveTrace gen maxAttempts p σ pipeline, DepOrdered pipeline σ' :=
  driveTrace_dep_ordered gen maxAttempts p pipeline hnd pipeline
    (fun _ h => h) σ hσ

/-- Witness for claim C6: on the two-roots scenario graph, the state at the
end of the drive loop from fresh still satisfies the dependency-ordering
invariant. -/
theorem dependency_ordering_witness :
    DepOrdered twoRootsPipeline
      (drive okOracle 3 exampleParams twoRootsPipeline initState) :=
  dependency_ordering okOracle 3 exampleParams twoRootsPipeline initState
    (by decide) (by unfold DepOrdered; decide)
    (drive okOracle 3 exampleParams twoRootsPipeline initState)
    (by simp [driveTrace, drive, twoRootsPipeline, List.foldl])

end GTM
